import Mathlib

/-!
Verification of the InterOp metric-stream codec and the `cyclesim`
multi-category copy tool.

The repository sources under scrutiny are:
* `src/apps/cyclesim.cpp` — the orchestrated multi-category copy
  (`write_interops`, `copy_tile_metrics`, `copy_cycle_metrics`,
  `read_metrics_from_file`, `encode_error`, the exit-code enum);
* `src/tests/interop/metrics/metric_streams_test.cpp` — tests of the binary
  stream reader/writer.

The stream reader/writer and metric-set container themselves
(`io::read_interop`, `io::write_interop`, the metric-set classes) are not
part of the available sources — only their callers and tests are — so those
components are modelled here from the specification (header layout
`[version:1][declared_record_size:2]?[extra]?[record]*`, little-endian,
all-or-nothing completeness, error taxonomy).  Every definition modelled
that way carries a doc comment starting with `Modelled from the spec:`.
-/

/-- Modelled from the spec: the distinguishable reasons a `BadFormat` error
can carry (unsupported version byte, mismatched declared record size,
structurally inconsistent data). -/
inductive BadFormatKind where
  | unsupportedVersion
  | recordSizeMismatch
  | corrupt
deriving DecidableEq

/-- Modelled from the spec: the error taxonomy of the stream reader
(`FileNotFound`, `IncompleteFile`, `BadFormat`, `UnexpectedError`).  The
reader is total and fallible, so it returns `Except ReadError _`; a thrown
C++ exception corresponds to an `Except.error`. -/
inductive ReadError where
  | fileNotFound
  | incompleteFile
  | badFormat (kind : BadFormatKind)
  | unexpectedError
deriving DecidableEq

/-- Fuel-driven worker for `chunkExact`; the fuel is always instantiated
with the length of the list, which makes the recursion structural (and hence
kernel-reducible for concrete inputs). -/
def chunkAux : Nat → Nat → List Nat → Option (List (List Nat))
  | _, _, [] => some []
  | 0, _, _ :: _ => none
  | fuel + 1, S, b :: l =>
    if 0 < S ∧ S ≤ (b :: l).length then
      (chunkAux fuel S ((b :: l).drop S)).map ((b :: l).take S :: ·)
    else none

/-- Modelled from the spec: split the post-header bytes into consecutive
records of exactly `S` bytes.  Returns `none` exactly when the remaining
length is not an exact multiple of the record size (truncation mid-record),
mirroring the "whole-file length must be an exact multiple" completeness
test. -/
def chunkExact (S : Nat) (l : List Nat) : Option (List (List Nat)) :=
  chunkAux l.length S l

/-- Modelled from the spec: a fixed-size metric category is described by its
supported version set, the expected record size for each version, and the
length of the category-specific extra header fields for each version.  The
declared-record-size field is present for all fixed-size categories. -/
structure FixedCategory where
  supported : List Nat
  recSize : Nat → Nat
  extraLen : Nat → Nat

/-- Modelled from the spec: the metric-set container for a fixed-size
category — the format version, the category-specific extra header bytes,
and the decoded records in file (insertion) order.  A record is kept as its
exact on-disk byte chunk; the per-category field layouts inside a record
are bijective fixed-width little-endian views of that chunk and are not
needed by any claim. -/
structure FixedMetricSet where
  version : Nat
  headerExtra : List Nat
  records : List (List Nat)
deriving DecidableEq

/-- Modelled from the spec: the stream reader for a fixed-size category.
Reads the version byte first (unsupported version is a `BadFormat`), then
the 2-byte little-endian declared record size (mismatch with the codec's
expected size is a `BadFormat`), then the extra header fields, then splits
the remaining bytes into whole records; a remainder that is not an exact
multiple of the record size is an `IncompleteFile`.  Running out of bytes
inside the header is an `IncompleteFile`. -/
def readFixed (cat : FixedCategory) (bytes : List Nat) : Except ReadError FixedMetricSet :=
  match bytes with
  | v :: b1 :: b2 :: rest =>
    if v ∈ cat.supported then
      if b1 + 256 * b2 = cat.recSize v then
        if cat.extraLen v ≤ rest.length then
          match chunkExact (cat.recSize v) (rest.drop (cat.extraLen v)) with
          | some rs => .ok ⟨v, rest.take (cat.extraLen v), rs⟩
          | none => .error .incompleteFile
        else .error .incompleteFile
      else .error (.badFormat .recordSizeMismatch)
    else .error (.badFormat .unsupportedVersion)
  | v :: _ =>
    if v ∈ cat.supported then .error .incompleteFile
    else .error (.badFormat .unsupportedVersion)
  | [] => .error .incompleteFile

/-- Modelled from the spec: the stream writer for a fixed-size category.
Emits the header — version byte, the codec's record size as two
little-endian bytes, the stored extra header fields — followed by every
record byte chunk in container order, with no padding. -/
def writeFixed (cat : FixedCategory) (s : FixedMetricSet) : List Nat :=
  s.version :: (cat.recSize s.version % 256) :: (cat.recSize s.version / 256) ::
    (s.headerExtra ++ s.records.flatten)

/-- Little-endian decoding of two bytes. -/
def fromLE2 (b0 b1 : Nat) : Nat := b0 + 256 * b1

/-- Little-endian encoding of a value below 2^16 into two bytes. -/
def toLE2 (v : Nat) : List Nat := [v % 256, v / 256]

/-- Little-endian decoding of four bytes. -/
def fromLE4 (b0 b1 b2 b3 : Nat) : Nat := b0 + 256 * (b1 + 256 * (b2 + 256 * b3))

/-- Little-endian encoding of a value below 2^32 into four bytes. -/
def toLE4 (v : Nat) : List Nat := [v % 256, v / 256 % 256, v / 65536 % 256, v / 16777216]

/-- Modelled from the spec: one per-read sub-entry embedded in a tile
record — `read: u32` and a 4-byte single-precision value kept as its raw
little-endian bit pattern. -/
structure sub_entry where
  read : Nat
  value : Nat
deriving DecidableEq

/-- Modelled from the spec: a tile record of the variable-size category —
scalar tile-level key fields plus a count-prefixed ordered sequence of
per-read sub-entries. -/
structure tile_rec_b where
  lane : Nat
  tile : Nat
  subs : List sub_entry
deriving DecidableEq

/-- Modelled from the spec: the metric-set container of the variable-size
tile category — the format version and the records in file order.  The
tile category has no declared-record-size header field. -/
structure tile_set_b where
  version : Nat
  records : List tile_rec_b
deriving DecidableEq

/-- Modelled from the spec: decode exactly `n` fixed-size (8-byte)
sub-entries, returning them with the remaining bytes; `none` when fewer
bytes remain than the sub-entry count implies. -/
def readSubs : Nat → List Nat → Option (List sub_entry × List Nat)
  | 0, l => some ([], l)
  | n + 1, b0 :: b1 :: b2 :: b3 :: c0 :: c1 :: c2 :: c3 :: rest =>
    match readSubs n rest with
    | some (ss, rem) => some (⟨fromLE4 b0 b1 b2 b3, fromLE4 c0 c1 c2 c3⟩ :: ss, rem)
    | none => none
  | _ + 1, _ => none

/-- Fuel-driven worker for `readTileRecs`; the fuel is always instantiated
with the length of the list, keeping the recursion structural. -/
def readTileRecsAux : Nat → List Nat → Except ReadError (List tile_rec_b)
  | _, [] => .ok []
  | 0, _ :: _ => .error .incompleteFile
  | fuel + 1, a0 :: a1 :: t0 :: t1 :: n0 :: n1 :: rest =>
    match readSubs (fromLE2 n0 n1) rest with
    | some (ss, rem) =>
      match readTileRecsAux fuel rem with
      | .ok rs => .ok (⟨fromLE2 a0 a1, fromLE2 t0 t1, ss⟩ :: rs)
      | .error e => .error e
    | none => .error .incompleteFile
  | _ + 1, _ => .error .incompleteFile

/-- Modelled from the spec: iteratively decode variable-size tile records —
each record carries a fixed prefix (lane, tile, sub-entry count, all
little-endian) followed by that many fixed-size sub-entries; fewer bytes
than the prefix or than the count implies is an `IncompleteFile`; decoding
stops cleanly at a record boundary with zero bytes left. -/
def readTileRecs (l : List Nat) : Except ReadError (List tile_rec_b) :=
  readTileRecsAux l.length l

/-- Modelled from the spec: the stream reader of the variable-size tile
category — version byte first (unsupported version is a `BadFormat`, an
empty stream an `IncompleteFile`), then the records until exhaustion. -/
def readTile (supported : List Nat) (l : List Nat) : Except ReadError tile_set_b :=
  match l with
  | [] => .error .incompleteFile
  | v :: rest =>
    if v ∈ supported then
      match readTileRecs rest with
      | .ok rs => .ok ⟨v, rs⟩
      | .error e => .error e
    else .error (.badFormat .unsupportedVersion)

/-- Modelled from the spec: encode one sub-entry (read then value,
little-endian, no padding). -/
def writeSub (s : sub_entry) : List Nat := toLE4 s.read ++ toLE4 s.value

/-- Modelled from the spec: encode one tile record — fixed prefix (lane,
tile, sub-entry count) then the sub-entries, little-endian, no padding. -/
def writeTileRec (r : tile_rec_b) : List Nat :=
  toLE2 r.lane ++ toLE2 r.tile ++ toLE2 r.subs.length ++ (r.subs.map writeSub).flatten

/-- Modelled from the spec: the stream writer of the tile category —
version byte followed by every record in container order. -/
def writeTile (t : tile_set_b) : List Nat :=
  t.version :: (t.records.map writeTileRec).flatten

/-! ## The `cyclesim` application (embedded from `src/apps/cyclesim.cpp`)

The in-memory metric model below stands for the metric-set classes the
application manipulates (they are not among the available sources).  The
outcome of `io::read_interop` for one category is represented as an
`Except ReadError` value, and a write to a destination file as appending
the written set to that destination's write trace. -/

/-- Exit code `SUCCESS` of the `exit_codes` enum in cyclesim.cpp. -/
def SUCCESS : Nat := 0

/-- Exit code `INVALID_ARGUMENTS` of the `exit_codes` enum in cyclesim.cpp. -/
def INVALID_ARGUMENTS : Nat := 1

/-- Exit code `NO_INTEROPS_FOUND` of the `exit_codes` enum in cyclesim.cpp. -/
def NO_INTEROPS_FOUND : Nat := 2

/-- Exit code `BAD_FORMAT` of the `exit_codes` enum in cyclesim.cpp. -/
def BAD_FORMAT : Nat := 3

/-- Exit code `UNEXPECTED_EXCEPTION` of the `exit_codes` enum in cyclesim.cpp. -/
def UNEXPECTED_EXCEPTION : Nat := 4

/-- Exit code `EMPTY_INTEROP` of the `exit_codes` enum in cyclesim.cpp. -/
def EMPTY_INTEROP : Nat := 5

/-- Modelled from the spec: one per-read metric of a tile record as held in
memory by the tile metric set (`tile_metric::read_metric`). -/
structure read_metric where
  read : Nat
  value : Nat
deriving DecidableEq

/-- Modelled from the spec: one in-memory tile record — tile-level scalar
fields plus the embedded per-read metrics (`tile_metric`). -/
structure tile_metric where
  lane : Nat
  tile : Nat
  cluster_density : Nat
  cluster_count : Nat
  read_metrics : List read_metric
deriving DecidableEq

/-- Modelled from the spec: the in-memory tile metric set — records in
insertion order plus the version and header metadata needed to reproduce
the header (`tile_metrics`). -/
structure tile_metrics where
  records : List tile_metric
  version : Nat
  headerExtra : List Nat
deriving DecidableEq

/-- Modelled from the spec: one in-memory record of a per-cycle category,
keyed by `(lane, tile, cycle)`; the remaining numeric measurements are
category-specific and kept opaque. -/
structure cyc_metric where
  lane : Nat
  tile : Nat
  cycle : Nat
  payload : List Nat
deriving DecidableEq

/-- Modelled from the spec: the in-memory metric set of a per-cycle
category (used uniformly for the error, corrected-intensity, extraction,
q and image categories, whose orchestration code is one shared template). -/
structure cyc_metrics where
  records : List cyc_metric
  version : Nat
  headerExtra : List Nat
deriving DecidableEq

/-- A default-constructed tile metric set (what `tile_metrics metrics;`
builds before the read populates it). -/
def tile_empty : tile_metrics := ⟨[], 0, []⟩

/-- A default-constructed per-cycle metric set. -/
def cyc_empty : cyc_metrics := ⟨[], 0, []⟩

/-- The inner loop of `copy_tile_metrics` (cyclesim.cpp:223-227): walk the
read metrics of one tile and keep those with `read() <= max_read`
(`if(rbeg->read() > max_read) continue; reads.push_back(*rbeg);`). -/
def keep_reads (max_read : Nat) : List read_metric → List read_metric
  | [] => []
  | r :: rs => if r.read > max_read then keep_reads max_read rs else r :: keep_reads max_read rs

/-- The outer loop of `copy_tile_metrics` (cyclesim.cpp:220-230): every
tile is re-pushed with its filtered read metrics
(`subset.push_back(tile_metric(*beg, reads));`). -/
def tile_subset (max_read : Nat) : List tile_metric → List tile_metric
  | [] => []
  | t :: ts =>
    { t with read_metrics := keep_reads max_read t.read_metrics } :: tile_subset max_read ts

/-- The filtered tile metric set built by `copy_tile_metrics`
(cyclesim.cpp:232: `tile_metrics metricsOut(subset, metrics.version(), metrics);`):
filtered records, same version, same header metadata. -/
def filter_by_read (s : tile_metrics) (max_read : Nat) : tile_metrics :=
  ⟨tile_subset max_read s.records, s.version, s.headerExtra⟩

/-- The loop of `copy_cycle_metrics` (cyclesim.cpp:265-269): keep records
with `cycle() <= max_cycle`
(`if(beg->cycle() > max_cycle) continue; subset.push_back(*beg);`). -/
def keep_cycles (max_cycle : Nat) : List cyc_metric → List cyc_metric
  | [] => []
  | m :: ms => if m.cycle > max_cycle then keep_cycles max_cycle ms else m :: keep_cycles max_cycle ms

/-- The filtered per-cycle metric set built by `copy_cycle_metrics`
(cyclesim.cpp:271: `MetricSet metricsOut(subset, metrics.version(), metrics);`). -/
def filter_by_cycle (s : cyc_metrics) (max_cycle : Nat) : cyc_metrics :=
  ⟨keep_cycles max_cycle s.records, s.version, s.headerExtra⟩

/-- `read_metrics_from_file` (cyclesim.cpp:165-189): turn the expected
exceptions of `io::read_interop` into return codes.  `file_not_found`
returns 1; `bad_format` returns `BAD_FORMAT`; `incomplete_file` is caught
and falls through; any other exception returns `UNEXPECTED_EXCEPTION`;
after the catches, a metric set with `size()==0` returns `EMPTY_INTEROP`,
otherwise 0.  The set passed in starts default-constructed, so a caught
exception leaves it empty. -/
def read_metrics_from_file {M : Type} (emptyM : M) (msize : M → Nat)
    (r : Except ReadError M) : Nat × M :=
  let caught : Option Nat × M :=
    match r with
    | .ok m => (none, m)
    | .error .fileNotFound => (some 1, emptyM)
    | .error (.badFormat _) => (some BAD_FORMAT, emptyM)
    | .error .incompleteFile => (none, emptyM)
    | .error .unexpectedError => (some UNEXPECTED_EXCEPTION, emptyM)
  match caught with
  | (some c, m) => (c, m)
  | (none, m) => if msize m = 0 then (EMPTY_INTEROP, m) else (0, m)

/-- `copy_tile_metrics` (cyclesim.cpp:198-243): read the tile metric set;
on a nonzero code return it with nothing written; otherwise write the full
set to the destination, then build the read-filtered subset and write it to
the same destination.  The second component is the chronological write
trace of the destination file. -/
def copy_tile_metrics (r : Except ReadError tile_metrics) (max_read : Nat) :
    Nat × List tile_metrics :=
  let p := read_metrics_from_file tile_empty (fun m => m.records.length) r
  if p.1 ≠ 0 then (p.1, [])
  else (0, [p.2, filter_by_read p.2 max_read])

/-- `copy_cycle_metrics` (cyclesim.cpp:252-282): read a per-cycle metric
set; on a nonzero code return it with nothing written; otherwise write the
cycle-filtered subset to the destination. -/
def copy_cycle_metrics (r : Except ReadError cyc_metrics) (max_cycle : Nat) :
    Nat × List cyc_metrics :=
  let p := read_metrics_from_file cyc_empty (fun m => m.records.length) r
  if p.1 ≠ 0 then (p.1, [])
  else (0, [filter_by_cycle p.2 max_cycle])

/-- `encode_error` (cyclesim.cpp:290-293): combine an error code and a
metric type into one exit code. -/
def encode_error (res ty : Nat) : Nat := res * 100 + ty

/-- The per-category outcomes of `io::read_interop` in the source run
folder, one per InterOp file the application reads (tile, error,
corrected-intensity, extraction, q, image). -/
structure run_inputs where
  tile : Except ReadError tile_metrics
  err : Except ReadError cyc_metrics
  ci : Except ReadError cyc_metrics
  extraction : Except ReadError cyc_metrics
  q : Except ReadError cyc_metrics
  image : Except ReadError cyc_metrics

/-- Observable effects of one `write_interops` run: which categories were
attempted (their `copy_*` function was invoked) and each destination
file's chronological write trace. -/
structure run_outputs where
  tile_att : Bool
  tile_writes : List tile_metrics
  err_att : Bool
  err_writes : List cyc_metrics
  ci_att : Bool
  ci_writes : List cyc_metrics
  ext_att : Bool
  ext_writes : List cyc_metrics
  q_att : Bool
  q_writes : List cyc_metrics
  img_att : Bool
  img_writes : List cyc_metrics
deriving DecidableEq

/-- Outputs before any category has been attempted. -/
def empty_outputs : run_outputs := ⟨false, [], false, [], false, [], false, [], false, [], false, []⟩

/-- The tail of `write_interops` (cyclesim.cpp:313-326) shared by both
branches of the `max_cycle > cycle_to_align` conditional: the
corrected-intensity, extraction, q and image categories in source order,
each aborting with `encode_error(res, 2)` when its code exceeds 1 and
incrementing `valid_count` when its code is 0; finally
`NO_INTEROPS_FOUND` when `valid_count == 0`. -/
def wi_tail (inp : run_inputs) (max_cycle : Nat) (v : Nat) (o : run_outputs) :
    Nat × run_outputs :=
  let p3 := copy_cycle_metrics inp.ci max_cycle
  let o3 := { o with ci_att := true, ci_writes := p3.2 }
  if p3.1 > 1 then (encode_error p3.1 2, o3) else
  let v3 := v + (if p3.1 = 0 then 1 else 0)
  let p4 := copy_cycle_metrics inp.extraction max_cycle
  let o4 := { o3 with ext_att := true, ext_writes := p4.2 }
  if p4.1 > 1 then (encode_error p4.1 2, o4) else
  let v4 := v3 + (if p4.1 = 0 then 1 else 0)
  let p5 := copy_cycle_metrics inp.q max_cycle
  let o5 := { o4 with q_att := true, q_writes := p5.2 }
  if p5.1 > 1 then (encode_error p5.1 2, o5) else
  let v5 := v4 + (if p5.1 = 0 then 1 else 0)
  let p6 := copy_cycle_metrics inp.image max_cycle
  let o6 := { o5 with img_att := true, img_writes := p6.2 }
  if p6.1 > 1 then (encode_error p6.1 2, o6) else
  let v6 := v5 + (if p6.1 = 0 then 1 else 0)
  if v6 = 0 then (NO_INTEROPS_FOUND, o6) else (SUCCESS, o6)

/-- `write_interops` (cyclesim.cpp:302-327): tile first (aborting with
`encode_error(res, 1)` on a code above 1), then — only when
`max_cycle > cycle_to_align` — the error category, then the common tail.
`main` passes `cycle_to_align = 25`. -/
def write_interops (inp : run_inputs) (max_cycle max_read cycle_to_align : Nat) :
    Nat × run_outputs :=
  let p1 := copy_tile_metrics inp.tile max_read
  let o1 := { empty_outputs with tile_att := true, tile_writes := p1.2 }
  if p1.1 > 1 then (encode_error p1.1 1, o1) else
  let v1 := if p1.1 = 0 then 1 else 0
  if cycle_to_align < max_cycle then
    let p2 := copy_cycle_metrics inp.err max_cycle
    let o2 := { o1 with err_att := true, err_writes := p2.2 }
    if p2.1 > 1 then (encode_error p2.1 2, o2) else
    wi_tail inp max_cycle (v1 + (if p2.1 = 0 then 1 else 0)) o2
  else wi_tail inp max_cycle v1 o1

/-- A read outcome that the batch policy treats as usable or ignorable:
either the file was absent, or the read succeeded with at least one
record. -/
def benign_cyc (r : Except ReadError cyc_metrics) : Prop :=
  r = .error .fileNotFound ∨ ∃ s, r = .ok s ∧ s.records ≠ []

/-- Tile-category counterpart of `benign_cyc`. -/
def benign_tile (r : Except ReadError tile_metrics) : Prop :=
  r = .error .fileNotFound ∨ ∃ s, r = .ok s ∧ s.records ≠ []

/-- A concrete fixed-size category used to instantiate the universally
quantified theorems: versions `{3}`, record size 4, two extra header
bytes. -/
def exCat : FixedCategory := ⟨[3], fun _ => 4, fun _ => 2⟩

/-- A concrete well-formed byte stream for `exCat`: header `3, 4, 0`,
extra bytes `9, 9`, then two 4-byte records. -/
def exBytes : List Nat := [3, 4, 0, 9, 9, 1, 2, 3, 4, 5, 6, 7, 8]

/-- A concrete well-formed tile-category byte stream: version 2, then one
record with lane 1, tile 5 and one sub-entry (read 1, value 77). -/
def exTileBytes : List Nat := [2, 1, 0, 5, 0, 1, 0, 1, 0, 0, 0, 77, 0, 0, 0]

/-- A concrete nonempty per-cycle metric set. -/
def exCycSet : cyc_metrics := ⟨[⟨1, 1, 1, [10]⟩, ⟨1, 1, 30, [20]⟩], 3, []⟩

/-- A concrete nonempty tile metric set. -/
def exTileSet : tile_metrics := ⟨[⟨1, 5, 100, 200, [⟨1, 7⟩, ⟨2, 8⟩]⟩], 2, []⟩

/-- Concrete run inputs for the claim C3 counterexample: every per-cycle
category reads fine, but the tile file is incomplete. -/
def cinp3 : run_inputs :=
  ⟨.error .incompleteFile, .ok exCycSet, .ok exCycSet, .ok exCycSet, .ok exCycSet, .ok exCycSet⟩

/-- Concrete run inputs for the claim C8 counterexample: every category
reads fine. -/
def cinp8 : run_inputs :=
  ⟨.ok exTileSet, .ok exCycSet, .ok exCycSet, .ok exCycSet, .ok exCycSet, .ok exCycSet⟩

/-- A parsed per-cycle metric set with zero records (valid header, no
records). -/
def emptyCycSet : cyc_metrics := ⟨[], 3, []⟩

/-- Concrete run inputs with a missing tile file and readable per-cycle
files. -/
def winp3 : run_inputs :=
  ⟨.error .fileNotFound, .ok exCycSet, .ok exCycSet, .ok exCycSet, .ok exCycSet, .ok exCycSet⟩

/-- Concrete run inputs with a missing tile file and an empty (zero
records) corrected-intensity file. -/
def winp9 : run_inputs :=
  ⟨.error .fileNotFound, .ok exCycSet, .ok emptyCycSet, .ok exCycSet, .ok exCycSet, .ok exCycSet⟩

/-- Concrete run inputs with a missing tile file and a missing
corrected-intensity file. -/
def winp9b : run_inputs :=
  ⟨.error .fileNotFound, .ok exCycSet, .error .fileNotFound, .ok exCycSet, .ok exCycSet, .ok exCycSet⟩

theorem chunkAux_flatten (fuel : Nat) :
    ∀ (S : Nat) (l : List Nat) (rs : List (List Nat)), l.length ≤ fuel →
      chunkAux fuel S l = some rs → rs.flatten = l := by
  induction fuel with
  | zero =>
    intro S l rs hlen h
    cases l with
    | nil => simp [chunkAux] at h; simp [h]
    | cons b t => simp at hlen
  | succ fuel ih =>
    intro S l rs hlen h
    cases l with
    | nil => simp [chunkAux] at h; simp [h]
    | cons b t =>
      simp only [chunkAux] at h
      by_cases hc : 0 < S ∧ S ≤ (b :: t).length
      · rw [if_pos hc] at h
        cases hrec : chunkAux fuel S ((b :: t).drop S) with
        | none => rw [hrec] at h; simp at h
        | some rs' =>
          rw [hrec] at h
          simp only [Option.map_some', Option.some.injEq] at h
          have hdl : ((b :: t).drop S).length ≤ fuel := by
            rw [List.length_drop]
            have h1 : (b :: t).length = t.length + 1 := by simp
            have hS := hc.1
            omega
          have hflat := ih S ((b :: t).drop S) rs' hdl hrec
          rw [← h, List.flatten_cons, hflat, List.take_append_drop]
      · rw [if_neg hc] at h; simp at h

theorem chunkExact_flatten (S : Nat) (l : List Nat) (rs : List (List Nat))
    (h : chunkExact S l = some rs) : rs.flatten = l :=
  chunkAux_flatten l.length S l rs (Nat.le_refl _) h

theorem chunkAux_none_iff (fuel : Nat) :
    ∀ (S : Nat) (l : List Nat), l.length ≤ fuel →
      (chunkAux fuel S l = none ↔ l ≠ [] ∧ ¬(0 < S ∧ S ∣ l.length)) := by
  induction fuel with
  | zero =>
    intro S l hlen
    cases l with
    | nil => simp [chunkAux]
    | cons b t => simp at hlen
  | succ fuel ih =>
    intro S l hlen
    cases l with
    | nil => simp [chunkAux]
    | cons b t =>
      simp only [chunkAux]
      by_cases hc : 0 < S ∧ S ≤ (b :: t).length
      · have hS := hc.1
        have hSle := hc.2
        have hdl : ((b :: t).drop S).length ≤ fuel := by
          rw [List.length_drop]
          have h1 : (b :: t).length = t.length + 1 := by simp
          omega
        have hrec := ih S ((b :: t).drop S) hdl
        rw [if_pos hc, Option.map_eq_none', hrec]
        have hdlen : ((b :: t).drop S).length = (b :: t).length - S :=
          List.length_drop S (b :: t)
        have hdne : (b :: t).drop S ≠ [] ↔ S < (b :: t).length := by
          rw [← List.length_pos, hdlen]
          omega
        have hiff : S ∣ (b :: t).length - S ↔ S ∣ (b :: t).length := by
          constructor
          · intro h
            have := Nat.dvd_add h (dvd_refl S)
            rwa [Nat.sub_add_cancel hSle] at this
          · intro h
            exact Nat.dvd_sub' h (dvd_refl S)
        constructor
        · rintro ⟨h1, h2⟩
          refine ⟨by simp, ?_⟩
          rintro ⟨-, hdvd⟩
          exact h2 ⟨hS, by rw [hdlen, hiff]; exact hdvd⟩
        · rintro ⟨-, h2⟩
          have hndvd : ¬ S ∣ (b :: t).length := fun hd => h2 ⟨hS, hd⟩
          have hlt : S < (b :: t).length := by
            rcases Nat.lt_or_eq_of_le hSle with h | h
            · exact h
            · exact absurd (h ▸ dvd_refl S) hndvd
          refine ⟨hdne.mpr hlt, ?_⟩
          rintro ⟨-, hdvd⟩
          rw [hdlen, hiff] at hdvd
          exact hndvd hdvd
      · rw [if_neg hc]
        constructor
        · intro _
          refine ⟨by simp, ?_⟩
          rintro ⟨hS, hdvd⟩
          exact hc ⟨hS, Nat.le_of_dvd (by simp) hdvd⟩
        · intro _
          rfl

theorem chunkExact_none_iff (S : Nat) (l : List Nat) :
    chunkExact S l = none ↔ l ≠ [] ∧ ¬(0 < S ∧ S ∣ l.length) :=
  chunkAux_none_iff l.length S l (Nat.le_refl _)

theorem chunkExact_some_dvd (S : Nat) (l : List Nat) (rs : List (List Nat))
    (h : chunkExact S l = some rs) : l = [] ∨ (0 < S ∧ S ∣ l.length) := by
  by_cases hl : l = []
  · exact Or.inl hl
  · right
    by_contra hnd
    have := (chunkExact_none_iff S l).mpr ⟨hl, hnd⟩
    rw [h] at this
    simp at this

theorem readFixed_ok_inv (cat : FixedCategory) (bytes : List Nat) (s : FixedMetricSet)
    (h : readFixed cat bytes = .ok s) :
    ∃ b1 b2 rest, bytes = s.version :: b1 :: b2 :: rest ∧
      s.version ∈ cat.supported ∧
      b1 + 256 * b2 = cat.recSize s.version ∧
      cat.extraLen s.version ≤ rest.length ∧
      s.headerExtra = rest.take (cat.extraLen s.version) ∧
      chunkExact (cat.recSize s.version) (rest.drop (cat.extraLen s.version)) = some s.records := by
  match bytes with
  | [] => simp [readFixed] at h
  | [v] =>
    simp only [readFixed] at h
    split_ifs at h
  | [v, b1] =>
    simp only [readFixed] at h
    split_ifs at h
  | v :: b1 :: b2 :: rest =>
    simp only [readFixed] at h
    split_ifs at h with hv hd he
    · cases hch : chunkExact (cat.recSize v) (rest.drop (cat.extraLen v)) with
      | none => rw [hch] at h; simp at h
      | some rs =>
        rw [hch] at h
        simp only [Except.ok.injEq] at h
        subst h
        exact ⟨b1, b2, rest, rfl, hv, hd, he, rfl, hch⟩

theorem readFixed_write (cat : FixedCategory) (bytes : List Nat) (s : FixedMetricSet)
    (hb : ∀ b ∈ bytes, b < 256) (h : readFixed cat bytes = .ok s) :
    writeFixed cat s = bytes := by
  obtain ⟨b1, b2, rest, hbytes, hv, hd, he, hex, hch⟩ := readFixed_ok_inv cat bytes s h
  subst hbytes
  have hb1 : b1 < 256 := hb b1 (by simp)
  have hb2 : b2 < 256 := hb b2 (by simp)
  have hmod : cat.recSize s.version % 256 = b1 := by omega
  have hdiv : cat.recSize s.version / 256 = b2 := by omega
  have hflat := chunkExact_flatten _ _ _ hch
  simp only [writeFixed, hmod, hdiv, hex, hflat, List.take_append_drop]

theorem readFixed_take_header (cat : FixedCategory) (bytes : List Nat) (s : FixedMetricSet)
    (h : readFixed cat bytes = .ok s) :
    ∀ i, i < 3 + cat.extraLen s.version →
      readFixed cat (bytes.take i) = .error .incompleteFile := by
  obtain ⟨b1, b2, rest, hbytes, hv, hd, he, -, -⟩ := readFixed_ok_inv cat bytes s h
  subst hbytes
  intro i hi
  match i with
  | 0 => simp [readFixed]
  | 1 => simp [readFixed, hv]
  | 2 => simp [readFixed, hv]
  | (k + 3) =>
    have hk : k < cat.extraLen s.version := by omega
    simp only [List.take_succ_cons, readFixed, if_pos hv, if_pos hd]
    have hlen : (rest.take k).length = k := by
      rw [List.length_take]
      omega
    rw [if_neg]
    rw [hlen]
    omega

theorem readFixed_take_incomplete (cat : FixedCategory) (bytes : List Nat) (s : FixedMetricSet)
    (h : readFixed cat bytes = .ok s) :
    ∀ i, 3 + cat.extraLen s.version < i → i < bytes.length →
      ¬ (cat.recSize s.version ∣ (i - (3 + cat.extraLen s.version))) →
      readFixed cat (bytes.take i) = .error .incompleteFile := by
  obtain ⟨b1, b2, rest, hbytes, hv, hd, he, -, -⟩ := readFixed_ok_inv cat bytes s h
  subst hbytes
  intro i hgt hlt hnd
  obtain ⟨k, rfl⟩ : ∃ k, i = k + 3 := ⟨i - 3, by omega⟩
  have hkrest : k < rest.length := by
    simp at hlt
    omega
  have hE : cat.extraLen s.version < k := by omega
  simp only [List.take_succ_cons, readFixed, if_pos hv, if_pos hd]
  have hlen : (rest.take k).length = k := by
    rw [List.length_take]
    omega
  rw [if_pos (by rw [hlen]; omega)]
  have hbodylen : ((rest.take k).drop (cat.extraLen s.version)).length = k - cat.extraLen s.version := by
    rw [List.length_drop, hlen]
  have hbodyne : (rest.take k).drop (cat.extraLen s.version) ≠ [] := by
    intro hcon
    rw [hcon] at hbodylen
    simp at hbodylen
    omega
  have hnone : chunkExact (cat.recSize s.version) ((rest.take k).drop (cat.extraLen s.version)) = none := by
    rw [chunkExact_none_iff]
    refine ⟨hbodyne, ?_⟩
    rintro ⟨-, hdvd⟩
    rw [hbodylen] at hdvd
    apply hnd
    have : k + 3 - (3 + cat.extraLen s.version) = k - cat.extraLen s.version := by omega
    rw [this]
    exact hdvd
  rw [hnone]

theorem toLE2_fromLE2 (b0 b1 : Nat) (h0 : b0 < 256) (h1 : b1 < 256) :
    toLE2 (fromLE2 b0 b1) = [b0, b1] := by
  have e1 : fromLE2 b0 b1 % 256 = b0 := by
    simp only [fromLE2]
    omega
  have e2 : fromLE2 b0 b1 / 256 = b1 := by
    simp only [fromLE2]
    omega
  simp [toLE2, e1, e2]

theorem toLE4_fromLE4 (b0 b1 b2 b3 : Nat) (h0 : b0 < 256) (h1 : b1 < 256)
    (h2 : b2 < 256) (h3 : b3 < 256) :
    toLE4 (fromLE4 b0 b1 b2 b3) = [b0, b1, b2, b3] := by
  have e1 : fromLE4 b0 b1 b2 b3 % 256 = b0 := by
    simp only [fromLE4]
    omega
  have e2 : fromLE4 b0 b1 b2 b3 / 256 % 256 = b1 := by
    simp only [fromLE4]
    omega
  have e3 : fromLE4 b0 b1 b2 b3 / 65536 % 256 = b2 := by
    simp only [fromLE4]
    omega
  have e4 : fromLE4 b0 b1 b2 b3 / 16777216 = b3 := by
    simp only [fromLE4]
    omega
  simp [toLE4, e1, e2, e3, e4]

theorem readSubs_sound (n : Nat) :
    ∀ (l : List Nat) (ss : List sub_entry) (rem : List Nat), (∀ b ∈ l, b < 256) →
      readSubs n l = some (ss, rem) →
      ss.length = n ∧ (ss.map writeSub).flatten ++ rem = l := by
  induction n with
  | zero =>
    intro l ss rem hb h
    simp [readSubs] at h
    obtain ⟨h1, h2⟩ := h
    subst h1
    subst h2
    simp
  | succ n ih =>
    intro l ss rem hb h
    match l with
    | [] | [_] | [_, _] | [_, _, _] | [_, _, _, _] | [_, _, _, _, _]
    | [_, _, _, _, _, _] | [_, _, _, _, _, _, _] => simp [readSubs] at h
    | b0 :: b1 :: b2 :: b3 :: c0 :: c1 :: c2 :: c3 :: rest =>
      simp only [readSubs] at h
      split at h
      · rename_i ss1 rem1 hrec
        simp only [Option.some.injEq, Prod.mk.injEq] at h
        obtain ⟨h1, h2⟩ := h
        have hbrest : ∀ b ∈ rest, b < 256 := by
          intro b hbm
          exact hb b (by simp [hbm])
        obtain ⟨hlen, happ⟩ := ih rest ss1 rem1 hbrest hrec
        subst h1
        subst h2
        constructor
        · simp [hlen]
        · have hb0 : b0 < 256 := hb b0 (by simp)
          have hb1 : b1 < 256 := hb b1 (by simp)
          have hb2 : b2 < 256 := hb b2 (by simp)
          have hb3 : b3 < 256 := hb b3 (by simp)
          have hc0 : c0 < 256 := hb c0 (by simp)
          have hc1 : c1 < 256 := hb c1 (by simp)
          have hc2 : c2 < 256 := hb c2 (by simp)
          have hc3 : c3 < 256 := hb c3 (by simp)
          simp only [List.map_cons, List.flatten_cons, writeSub,
            toLE4_fromLE4 b0 b1 b2 b3 hb0 hb1 hb2 hb3,
            toLE4_fromLE4 c0 c1 c2 c3 hc0 hc1 hc2 hc3]
          simp [happ]
      · simp at h

theorem readTileRecsAux_write (fuel : Nat) :
    ∀ (l : List Nat) (rs : List tile_rec_b), l.length ≤ fuel → (∀ b ∈ l, b < 256) →
      readTileRecsAux fuel l = .ok rs → (rs.map writeTileRec).flatten = l := by
  induction fuel with
  | zero =>
    intro l rs hlen hb h
    match l with
    | [] =>
      simp [readTileRecsAux] at h
      simp [h]
    | b :: t => simp at hlen
  | succ fuel ih =>
    intro l rs hlen hb h
    match l with
    | [] =>
      simp [readTileRecsAux] at h
      simp [h]
    | [_] | [_, _] | [_, _, _] | [_, _, _, _] | [_, _, _, _, _] =>
      simp [readTileRecsAux] at h
    | a0 :: a1 :: t0 :: t1 :: n0 :: n1 :: rest =>
      simp only [readTileRecsAux] at h
      split at h
      · rename_i ss rem hsub
        split at h
        · rename_i rs1 hrec
          simp only [Except.ok.injEq] at h
          subst h
          have hbrest : ∀ b ∈ rest, b < 256 := by
            intro b hbm
            exact hb b (by simp [hbm])
          obtain ⟨hslen, happ⟩ := readSubs_sound _ _ _ _ hbrest hsub
          have hbrem : ∀ b ∈ rem, b < 256 := by
            intro b hbm
            apply hbrest
            rw [← happ]
            exact List.mem_append_right _ hbm
          have hremlen : rem.length ≤ fuel := by
            have hsplit : (ss.map writeSub).flatten.length + rem.length = rest.length := by
              rw [← List.length_append, happ]
            have hl6 : (a0 :: a1 :: t0 :: t1 :: n0 :: n1 :: rest).length = rest.length + 6 := by
              simp
            omega
          have hflat := ih rem rs1 hremlen hbrem hrec
          have ha0 : a0 < 256 := hb a0 (by simp)
          have ha1 : a1 < 256 := hb a1 (by simp)
          have ht0 : t0 < 256 := hb t0 (by simp)
          have ht1 : t1 < 256 := hb t1 (by simp)
          have hn0 : n0 < 256 := hb n0 (by simp)
          have hn1 : n1 < 256 := hb n1 (by simp)
          simp only [List.map_cons, List.flatten_cons, writeTileRec, hslen,
            toLE2_fromLE2 a0 a1 ha0 ha1, toLE2_fromLE2 t0 t1 ht0 ht1,
            toLE2_fromLE2 n0 n1 hn0 hn1, hflat]
          simp [happ]
        · simp at h
      · simp at h

theorem readTile_write (supported : List Nat) (bytes : List Nat) (t : tile_set_b)
    (hb : ∀ b ∈ bytes, b < 256) (h : readTile supported bytes = .ok t) :
    writeTile t = bytes := by
  match bytes with
  | [] => simp [readTile] at h
  | v :: rest =>
    simp only [readTile] at h
    split_ifs at h with hv
    · split at h
      · rename_i rs hrec
        simp only [Except.ok.injEq] at h
        subst h
        have hbr : ∀ b ∈ rest, b < 256 := by
          intro b hbm
          exact hb b (by simp [hbm])
        have hflat := readTileRecsAux_write rest.length rest rs (Nat.le_refl _) hbr hrec
        simp [writeTile, hflat]
      · simp at h

/-- Claim C1: for every metric category (fixed-size categories,
parameterised by `FixedCategory`, and the variable-size tile category) and
every supported format version, serializing a metric set that was parsed
from a well-formed, complete byte stream reproduces the input bytes
exactly: `write(read(bytes)) = bytes`, with the header emitted first and
the records emitted in container (insertion) order — no reformatting, no
reordering. -/
theorem claim1_round_trip :
    (∀ (cat : FixedCategory) (bytes : List Nat) (s : FixedMetricSet),
       (∀ b ∈ bytes, b < 256) → readFixed cat bytes = .ok s → writeFixed cat s = bytes) ∧
    (∀ (supported bytes : List Nat) (t : tile_set_b),
       (∀ b ∈ bytes, b < 256) → readTile supported bytes = .ok t → writeTile t = bytes) :=
  ⟨readFixed_write, readTile_write⟩

/-- Witness for C1 at the concrete streams `exBytes` and `exTileBytes`. -/
theorem claim1_round_trip_witness :
    writeFixed exCat ⟨3, [9, 9], [[1, 2, 3, 4], [5, 6, 7, 8]]⟩ = exBytes ∧
    writeTile ⟨2, [⟨1, 5, [⟨1, 77⟩]⟩]⟩ = exTileBytes :=
  ⟨claim1_round_trip.1 exCat exBytes ⟨3, [9, 9], [[1, 2, 3, 4], [5, 6, 7, 8]]⟩
      (by decide) (by rfl),
   claim1_round_trip.2 [2] exTileBytes ⟨2, [⟨1, 5, [⟨1, 77⟩]⟩]⟩
      (by decide) (by rfl)⟩

/-- Claim C2: for a well-formed fixed-size-category file of `N` bytes
(header of `3 + extraLen` bytes plus whole records of size `recSize`),
reading a strict prefix of length `i` with `header_len < i < N` whose
post-header length is not a multiple of the record size raises
`IncompleteFile`; a prefix shorter than the header raises an error (never
a successful empty parse); and removing the last `m` bytes,
`0 < m < recSize`, from the complete file raises `IncompleteFile` — no
partial metric set is returned on any of these paths. -/
theorem claim2_truncation (cat : FixedCategory) (bytes : List Nat) (s : FixedMetricSet)
    (h : readFixed cat bytes = .ok s) :
    (∀ i, 3 + cat.extraLen s.version < i → i < bytes.length →
        ¬ (cat.recSize s.version ∣ (i - (3 + cat.extraLen s.version))) →
        readFixed cat (bytes.take i) = .error .incompleteFile) ∧
    (∀ i, i < 3 + cat.extraLen s.version →
        ∃ e, readFixed cat (bytes.take i) = .error e) ∧
    (∀ m, 0 < m → m < cat.recSize s.version →
        readFixed cat (bytes.take (bytes.length - m)) = .error .incompleteFile) := by
  refine ⟨readFixed_take_incomplete cat bytes s h, ?_, ?_⟩
  · intro i hi
    exact ⟨.incompleteFile, readFixed_take_header cat bytes s h i hi⟩
  · intro m hm hmS
    obtain ⟨b1, b2, rest, hbytes, hv, hd, he, -, hch⟩ := readFixed_ok_inv cat bytes s h
    have hdvd := chunkExact_some_dvd _ _ _ hch
    have hblen : bytes.length = 3 + rest.length := by
      rw [hbytes]
      simp
      omega
    have hbody : (rest.drop (cat.extraLen s.version)).length
        = rest.length - cat.extraLen s.version := List.length_drop _ _
    have hheader : ∀ j, j < 3 + cat.extraLen s.version →
        readFixed cat (bytes.take j) = .error .incompleteFile :=
      readFixed_take_header cat bytes s h
    rcases hdvd with hnil | ⟨hS, hdvdB⟩
    · have hrlen : rest.length = cat.extraLen s.version := by
        have h0 := congrArg List.length hnil
        rw [hbody] at h0
        simp at h0
        omega
      apply hheader
      omega
    · rw [hbody] at hdvdB
      rcases Nat.eq_zero_or_pos (rest.length - cat.extraLen s.version) with hB | hB
      · apply hheader
        omega
      · have hSB : cat.recSize s.version ≤ rest.length - cat.extraLen s.version :=
          Nat.le_of_dvd hB hdvdB
        apply readFixed_take_incomplete cat bytes s h
        · omega
        · omega
        · intro hdm
          have hsub : bytes.length - m - (3 + cat.extraLen s.version)
              = (rest.length - cat.extraLen s.version) - m := by omega
          rw [hsub] at hdm
          have hmdvd : cat.recSize s.version ∣ m := by
            have h2 := Nat.dvd_sub' hdvdB hdm
            have h3 : (rest.length - cat.extraLen s.version)
                - ((rest.length - cat.extraLen s.version) - m) = m := by omega
            rwa [h3] at h2
          have := Nat.le_of_dvd hm hmdvd
          omega

/-- Witness for C2 at the concrete stream `exBytes` (header length 5,
record size 4, total length 13): prefix length 7 (mid-record), prefix
length 4 (inside the header), and dropping the last 3 bytes. -/
theorem claim2_truncation_witness :
    readFixed exCat (exBytes.take 7) = .error .incompleteFile ∧
    (∃ e, readFixed exCat (exBytes.take 4) = .error e) ∧
    readFixed exCat (exBytes.take (exBytes.length - 3)) = .error .incompleteFile := by
  have h : readFixed exCat exBytes = .ok ⟨3, [9, 9], [[1, 2, 3, 4], [5, 6, 7, 8]]⟩ := rfl
  obtain ⟨h1, h2, h3⟩ := claim2_truncation exCat exBytes _ h
  exact ⟨h1 7 (by decide) (by decide) (by decide), h2 4 (by decide),
    h3 3 (by decide) (by decide)⟩

/-- Claim C6: for every category, an input byte stream whose first byte
(the version) lies outside the category's supported set fails header
parsing with `BadFormat (UnsupportedVersion)`; no metric set is
produced. -/
theorem claim6_version_reject :
    (∀ (cat : FixedCategory) (v : Nat) (rest : List Nat), v ∉ cat.supported →
       readFixed cat (v :: rest) = .error (.badFormat .unsupportedVersion)) ∧
    (∀ (supported : List Nat) (v : Nat) (rest : List Nat), v ∉ supported →
       readTile supported (v :: rest) = .error (.badFormat .unsupportedVersion)) := by
  constructor
  · intro cat v rest hv
    match rest with
    | [] => simp [readFixed, hv]
    | [b1] => simp [readFixed, hv]
    | b1 :: b2 :: r => simp [readFixed, hv]
  · intro supported v rest hv
    simp [readTile, hv]

/-- Witness for C6: version byte set to 34 (as in the hardcoded test) on
both concrete streams. -/
theorem claim6_version_reject_witness :
    readFixed exCat (34 :: exBytes.tail) = .error (.badFormat .unsupportedVersion) ∧
    readTile [2] (34 :: exTileBytes.tail) = .error (.badFormat .unsupportedVersion) :=
  ⟨claim6_version_reject.1 exCat 34 exBytes.tail (by decide),
   claim6_version_reject.2 [2] 34 exTileBytes.tail (by decide)⟩

/-- Claim C7: for every category with a declared record-size field (all
fixed-size categories), a 2-byte declared record size that differs from
the codec's expected size for the (supported) version fails with
`BadFormat (RecordSizeMismatch)`, regardless of the bytes that follow. -/
theorem claim7_record_size (cat : FixedCategory) (v b1 b2 : Nat) (rest : List Nat)
    (hv : v ∈ cat.supported) (hd : b1 + 256 * b2 ≠ cat.recSize v) :
    readFixed cat (v :: b1 :: b2 :: rest) = .error (.badFormat .recordSizeMismatch) := by
  simp [readFixed, hv, hd]

/-- Witness for C7: the declared record size corrupted to zero (as in the
hardcoded test) in front of otherwise valid record bytes. -/
theorem claim7_record_size_witness :
    readFixed exCat (3 :: 0 :: 0 :: [9, 9, 1, 2, 3, 4, 5, 6, 7, 8])
      = .error (.badFormat .recordSizeMismatch) :=
  claim7_record_size exCat 3 0 0 [9, 9, 1, 2, 3, 4, 5, 6, 7, 8] (by decide) (by decide)

theorem keep_cycles_filter (m : Nat) (l : List cyc_metric) :
    keep_cycles m l = l.filter (fun r => r.cycle ≤ m) := by
  induction l with
  | nil => rfl
  | cons a t ih =>
    by_cases hgt : a.cycle > m
    · have hle : ¬ (a.cycle ≤ m) := by omega
      simp [keep_cycles, hgt, List.filter_cons, hle, ih]
    · have hle : a.cycle ≤ m := by omega
      simp [keep_cycles, hgt, List.filter_cons, hle, ih]

theorem keep_reads_filter (m : Nat) (l : List read_metric) :
    keep_reads m l = l.filter (fun r => r.read ≤ m) := by
  induction l with
  | nil => rfl
  | cons a t ih =>
    by_cases hgt : a.read > m
    · have hle : ¬ (a.read ≤ m) := by omega
      simp [keep_reads, hgt, List.filter_cons, hle, ih]
    · have hle : a.read ≤ m := by omega
      simp [keep_reads, hgt, List.filter_cons, hle, ih]

theorem tile_subset_map (m : Nat) (l : List tile_metric) :
    tile_subset m l
      = l.map (fun t => { t with read_metrics := t.read_metrics.filter (fun r => r.read ≤ m) }) := by
  induction l with
  | nil => rfl
  | cons a t ih => simp [tile_subset, keep_reads_filter, ih]

/-- Claim C4: for every per-cycle metric set and every `max_cycle` bound,
the cycle filter built by `copy_cycle_metrics` returns exactly the
subsequence (relative order preserved) of the input's records whose cycle
key is at most `max_cycle`, with version and header metadata identical to
the input's.  The input set is left untouched (the filter builds a new
set) and the operation is total. -/
theorem claim4_filter_by_cycle (s : cyc_metrics) (max_cycle : Nat) :
    (filter_by_cycle s max_cycle).records
        = s.records.filter (fun r => r.cycle ≤ max_cycle) ∧
    List.Sublist (filter_by_cycle s max_cycle).records s.records ∧
    (∀ r ∈ (filter_by_cycle s max_cycle).records, r.cycle ≤ max_cycle) ∧
    (filter_by_cycle s max_cycle).version = s.version ∧
    (filter_by_cycle s max_cycle).headerExtra = s.headerExtra := by
  refine ⟨keep_cycles_filter max_cycle s.records, ?_, ?_, rfl, rfl⟩
  · rw [show (filter_by_cycle s max_cycle).records = keep_cycles max_cycle s.records from rfl,
      keep_cycles_filter]
    exact List.filter_sublist s.records
  · intro r hr
    rw [show (filter_by_cycle s max_cycle).records = keep_cycles max_cycle s.records from rfl,
      keep_cycles_filter] at hr
    have := List.of_mem_filter hr
    simpa using this

/-- Claim C5: for every tile metric set and every `max_read` bound, the
read filter built by `copy_tile_metrics` keeps every tile record (a tile
is never dropped, even when all its sub-entries are filtered away),
replaces each tile's embedded sub-entry sequence with exactly those
sub-entries whose read key is at most `max_read` (order preserved), and
leaves the tile-level scalar fields and the set's version and header
metadata unchanged. -/
theorem claim5_filter_by_read (s : tile_metrics) (max_read : Nat) :
    (filter_by_read s max_read).records
        = s.records.map
            (fun t => { t with read_metrics := t.read_metrics.filter (fun r => r.read ≤ max_read) }) ∧
    (filter_by_read s max_read).records.length = s.records.length ∧
    (∀ t ∈ (filter_by_read s max_read).records, ∀ r ∈ t.read_metrics, r.read ≤ max_read) ∧
    (filter_by_read s max_read).version = s.version ∧
    (filter_by_read s max_read).headerExtra = s.headerExtra := by
  have hmap : (filter_by_read s max_read).records
      = s.records.map
          (fun t => { t with read_metrics := t.read_metrics.filter (fun r => r.read ≤ max_read) }) :=
    tile_subset_map max_read s.records
  refine ⟨hmap, by rw [hmap]; simp, ?_, rfl, rfl⟩
  intro t ht r hr
  rw [hmap] at ht
  obtain ⟨t0, -, rfl⟩ := List.mem_map.mp ht
  have := List.of_mem_filter hr
  simpa using this

theorem copy_cycle_fnf (mc : Nat) :
    copy_cycle_metrics (.error .fileNotFound) mc = (1, []) := rfl

theorem copy_cycle_bad (k : BadFormatKind) (mc : Nat) :
    copy_cycle_metrics (.error (.badFormat k)) mc = (BAD_FORMAT, []) := rfl

theorem copy_cycle_incomplete (mc : Nat) :
    copy_cycle_metrics (.error .incompleteFile) mc = (EMPTY_INTEROP, []) := rfl

theorem copy_cycle_ok (s : cyc_metrics) (hs : s.records ≠ []) (mc : Nat) :
    copy_cycle_metrics (.ok s) mc = (0, [filter_by_cycle s mc]) := by
  have hlen : ¬ (s.records.length = 0) := by
    intro h0
    exact hs (List.length_eq_zero.mp h0)
  simp [copy_cycle_metrics, read_metrics_from_file, hlen]

theorem copy_cycle_ok_empty (s : cyc_metrics) (hs : s.records = []) (mc : Nat) :
    copy_cycle_metrics (.ok s) mc = (EMPTY_INTEROP, []) := by
  simp [copy_cycle_metrics, read_metrics_from_file, hs, EMPTY_INTEROP]

theorem copy_tile_fnf (mr : Nat) :
    copy_tile_metrics (.error .fileNotFound) mr = (1, []) := rfl

theorem copy_tile_bad (k : BadFormatKind) (mr : Nat) :
    copy_tile_metrics (.error (.badFormat k)) mr = (BAD_FORMAT, []) := rfl

theorem copy_tile_incomplete (mr : Nat) :
    copy_tile_metrics (.error .incompleteFile) mr = (EMPTY_INTEROP, []) := rfl

theorem copy_tile_ok (s : tile_metrics) (hs : s.records ≠ []) (mr : Nat) :
    copy_tile_metrics (.ok s) mr = (0, [s, filter_by_read s mr]) := by
  have hlen : ¬ (s.records.length = 0) := by
    intro h0
    exact hs (List.length_eq_zero.mp h0)
  simp [copy_tile_metrics, read_metrics_from_file, hlen]

theorem copy_tile_ok_empty (s : tile_metrics) (hs : s.records = []) (mr : Nat) :
    copy_tile_metrics (.ok s) mr = (EMPTY_INTEROP, []) := by
  simp [copy_tile_metrics, read_metrics_from_file, hs, EMPTY_INTEROP]

/-- Claim C10: on a successful tile-category copy the unfiltered tile
metric set is written to the destination first and the same destination is
then rewritten with the read-filtered set: the destination's write trace
is `[full set, filtered set]`, so between the two writes the destination
holds the unfiltered data (the copy is not atomic with respect to the
filter) and the final destination contents are the filtered set. -/
theorem claim10_double_write (s : tile_metrics) (max_read : Nat) (hs : s.records ≠ []) :
    copy_tile_metrics (.ok s) max_read = (0, [s, filter_by_read s max_read]) ∧
    (copy_tile_metrics (.ok s) max_read).2.head? = some s ∧
    (copy_tile_metrics (.ok s) max_read).2.getLast? = some (filter_by_read s max_read) := by
  have h := copy_tile_ok s hs max_read
  refine ⟨h, ?_, ?_⟩
  · rw [h]
    rfl
  · rw [h]
    rfl

/-- Witness for C10 at the concrete tile set `exTileSet` with
`max_read = 1`. -/
theorem claim10_double_write_witness :
    copy_tile_metrics (.ok exTileSet) 1 = (0, [exTileSet, filter_by_read exTileSet 1]) ∧
    (copy_tile_metrics (.ok exTileSet) 1).2.head? = some exTileSet ∧
    (copy_tile_metrics (.ok exTileSet) 1).2.getLast? = some (filter_by_read exTileSet 1) :=
  claim10_double_write exTileSet 1 (by decide)

theorem wi_tail_tile_att (inp : run_inputs) (mc v : Nat) (o : run_outputs) :
    ((wi_tail inp mc v o).2).tile_att = o.tile_att := by
  simp only [wi_tail]
  repeat' split
  all_goals simp

theorem wi_tail_tile_writes (inp : run_inputs) (mc v : Nat) (o : run_outputs) :
    ((wi_tail inp mc v o).2).tile_writes = o.tile_writes := by
  simp only [wi_tail]
  repeat' split
  all_goals simp

theorem wi_tail_err_att (inp : run_inputs) (mc v : Nat) (o : run_outputs) :
    ((wi_tail inp mc v o).2).err_att = o.err_att := by
  simp only [wi_tail]
  repeat' split
  all_goals simp

theorem wi_tail_err_writes (inp : run_inputs) (mc v : Nat) (o : run_outputs) :
    ((wi_tail inp mc v o).2).err_writes = o.err_writes := by
  simp only [wi_tail]
  repeat' split
  all_goals simp

theorem wi_tail_ci_att (inp : run_inputs) (mc v : Nat) (o : run_outputs) :
    ((wi_tail inp mc v o).2).ci_att = true := by
  simp only [wi_tail]
  repeat' split
  all_goals simp

theorem wi_tail_ci_writes (inp : run_inputs) (mc v : Nat) (o : run_outputs) :
    ((wi_tail inp mc v o).2).ci_writes = (copy_cycle_metrics inp.ci mc).2 := by
  simp only [wi_tail]
  repeat' split
  all_goals simp

theorem wi_tail_ext_att (inp : run_inputs) (mc v : Nat) (o : run_outputs)
    (h3 : (copy_cycle_metrics inp.ci mc).1 ≤ 1) :
    ((wi_tail inp mc v o).2).ext_att = true := by
  simp only [wi_tail]
  rw [if_neg (by omega)]
  repeat' split
  all_goals simp

theorem wi_tail_abort_ci (inp : run_inputs) (mc v : Nat) (o : run_outputs)
    (h3 : (copy_cycle_metrics inp.ci mc).1 > 1) :
    wi_tail inp mc v o
      = (encode_error (copy_cycle_metrics inp.ci mc).1 2,
         { o with ci_att := true, ci_writes := (copy_cycle_metrics inp.ci mc).2 }) := by
  simp only [wi_tail]
  rw [if_pos h3]

/-- Counterexample to claim C3 as stated: with the tile file incomplete
and every per-cycle file perfectly readable, the whole operation is
aborted — `write_interops` returns `encode_error EMPTY_INTEROP 1 = 501`
and never even attempts the corrected-intensity category — so a read that
fails with IncompleteFile is *not* skipped silently. -/
theorem claim3_counterexample :
    (write_interops cinp3 30 4 25).1 = 501 ∧
    (write_interops cinp3 30 4 25).2.ci_att = false := ⟨rfl, rfl⟩

/-- Claim C3 (amended): in the orchestrated multi-category copy, a read
that fails with FileNotFound is skipped silently (nothing written, not an
error, the remaining categories still attempted), a read that fails with
BadFormat aborts the whole operation surfacing
`encode_error BAD_FORMAT ty`, and on a successful (nonempty) read the
relevant filter is applied and the result written to the destination;
however a read that fails with IncompleteFile leaves the
default-constructed set empty, so the category returns `EMPTY_INTEROP`
and the whole operation aborts with `encode_error EMPTY_INTEROP ty`
(rather than being skipped, as the claim stated).  Shown at the tile
category, and — behind a skipped tile read and a disabled error
category — at the corrected-intensity category. -/
theorem claim3_error_policy (inp : run_inputs) (mc mr ca : Nat) :
    (inp.tile = .error .fileNotFound → ¬ ca < mc →
       (write_interops inp mc mr ca).2.tile_writes = [] ∧
       (write_interops inp mc mr ca).2.ci_att = true) ∧
    (∀ k, inp.tile = .error (.badFormat k) →
       (write_interops inp mc mr ca).1 = encode_error BAD_FORMAT 1 ∧
       (write_interops inp mc mr ca).2.ci_att = false) ∧
    (inp.tile = .error .incompleteFile →
       (write_interops inp mc mr ca).1 = encode_error EMPTY_INTEROP 1 ∧
       (write_interops inp mc mr ca).2.ci_att = false) ∧
    (∀ s, inp.tile = .ok s → s.records ≠ [] →
       (write_interops inp mc mr ca).2.tile_writes = [s, filter_by_read s mr]) ∧
    (inp.tile = .error .fileNotFound → ¬ ca < mc → inp.ci = .error .fileNotFound →
       (write_interops inp mc mr ca).2.ci_writes = [] ∧
       (write_interops inp mc mr ca).2.ext_att = true) ∧
    (∀ k, inp.tile = .error .fileNotFound → ¬ ca < mc → inp.ci = .error (.badFormat k) →
       (write_interops inp mc mr ca).1 = encode_error BAD_FORMAT 2 ∧
       (write_interops inp mc mr ca).2.ext_att = false) ∧
    (∀ s, inp.tile = .error .fileNotFound → ¬ ca < mc → inp.ci = .ok s → s.records ≠ [] →
       (write_interops inp mc mr ca).2.ci_writes = [filter_by_cycle s mc]) := by
  refine ⟨?_, ?_, ?_, ?_, ?_, ?_, ?_⟩
  · intro ht hca
    have hw : write_interops inp mc mr ca
        = wi_tail inp mc 0 { empty_outputs with tile_att := true, tile_writes := [] } := by
      simp [write_interops, ht, copy_tile_fnf, hca]
    rw [hw]
    exact ⟨by rw [wi_tail_tile_writes], wi_tail_ci_att inp mc 0 _⟩
  · intro k ht
    simp [write_interops, ht, copy_tile_bad, BAD_FORMAT, empty_outputs]
  · intro ht
    simp [write_interops, ht, copy_tile_incomplete, EMPTY_INTEROP, empty_outputs]
  · intro s ht hs
    simp only [write_interops, ht, copy_tile_ok s hs mr]
    norm_num
    by_cases hca : ca < mc
    · rw [if_pos hca]
      split
      · simp
      · rw [wi_tail_tile_writes]
    · rw [if_neg hca]
      rw [wi_tail_tile_writes]
  · intro ht hca hci
    have hw : write_interops inp mc mr ca
        = wi_tail inp mc 0 { empty_outputs with tile_att := true, tile_writes := [] } := by
      simp [write_interops, ht, copy_tile_fnf, hca]
    rw [hw]
    constructor
    · rw [wi_tail_ci_writes, hci, copy_cycle_fnf]
    · apply wi_tail_ext_att
      rw [hci, copy_cycle_fnf]
  · intro k ht hca hci
    have hw : write_interops inp mc mr ca
        = wi_tail inp mc 0 { empty_outputs with tile_att := true, tile_writes := [] } := by
      simp [write_interops, ht, copy_tile_fnf, hca]
    rw [hw]
    have hcc : copy_cycle_metrics inp.ci mc = (BAD_FORMAT, []) := by
      rw [hci]
      exact copy_cycle_bad k mc
    have habort := wi_tail_abort_ci inp mc 0
      { empty_outputs with tile_att := true, tile_writes := [] } (by rw [hcc]; simp [BAD_FORMAT])
    rw [habort, hcc]
    simp [empty_outputs]
  · intro s ht hca hci hs
    have hw : write_interops inp mc mr ca
        = wi_tail inp mc 0 { empty_outputs with tile_att := true, tile_writes := [] } := by
      simp [write_interops, ht, copy_tile_fnf, hca]
    rw [hw, wi_tail_ci_writes, hci, copy_cycle_ok s hs mc]

/-- Witness for the amended C3 at concrete inputs: tile missing,
corrected-intensity readable, `max_cycle = 20 ≤ cycle_to_align = 25`. -/
theorem claim3_error_policy_witness :
    ((write_interops winp3 20 4 25).2.tile_writes = [] ∧
     (write_interops winp3 20 4 25).2.ci_att = true) ∧
    (write_interops winp3 20 4 25).2.ci_writes = [filter_by_cycle exCycSet 20] := by
  have h := claim3_error_policy winp3 20 4 25
  exact ⟨h.1 rfl (by omega), h.2.2.2.2.2.2 exCycSet rfl (by omega) rfl (by decide)⟩

theorem benign_cyc_copy (r : Except ReadError cyc_metrics) (mc : Nat) (h : benign_cyc r) :
    copy_cycle_metrics r mc = (1, []) ∨
    (∃ w, copy_cycle_metrics r mc = (0, w) ∧ w ≠ []) := by
  rcases h with h | ⟨s, hs, hn⟩
  · left
    rw [h]
    rfl
  · right
    exact ⟨[filter_by_cycle s mc], by rw [hs]; exact copy_cycle_ok s hn mc, by simp⟩

theorem benign_tile_copy (r : Except ReadError tile_metrics) (mr : Nat) (h : benign_tile r) :
    copy_tile_metrics r mr = (1, []) ∨
    (∃ w, copy_tile_metrics r mr = (0, w) ∧ w ≠ []) := by
  rcases h with h | ⟨s, hs, hn⟩
  · left
    rw [h]
    rfl
  · right
    exact ⟨[s, filter_by_read s mr], by rw [hs]; exact copy_tile_ok s hn mr, by simp⟩

theorem wi_tail_benign (inp : run_inputs) (mc v : Nat) (o : run_outputs)
    (h3 : benign_cyc inp.ci) (h4 : benign_cyc inp.extraction)
    (h5 : benign_cyc inp.q) (h6 : benign_cyc inp.image) :
    ((wi_tail inp mc v o).2).ext_att = true ∧
    ((wi_tail inp mc v o).2).q_att = true ∧
    ((wi_tail inp mc v o).2).img_att = true ∧
    ((wi_tail inp mc v o).2).ext_writes = (copy_cycle_metrics inp.extraction mc).2 ∧
    ((wi_tail inp mc v o).2).q_writes = (copy_cycle_metrics inp.q mc).2 ∧
    ((wi_tail inp mc v o).2).img_writes = (copy_cycle_metrics inp.image mc).2 ∧
    ((wi_tail inp mc v o).1 = NO_INTEROPS_FOUND ↔
       (v = 0 ∧ (copy_cycle_metrics inp.ci mc).2 = []
        ∧ (copy_cycle_metrics inp.extraction mc).2 = []
        ∧ (copy_cycle_metrics inp.q mc).2 = []
        ∧ (copy_cycle_metrics inp.image mc).2 = [])) := by
  have k3 := benign_cyc_copy inp.ci mc h3
  have k4 := benign_cyc_copy inp.extraction mc h4
  have k5 := benign_cyc_copy inp.q mc h5
  have k6 := benign_cyc_copy inp.image mc h6
  rcases k3 with k3 | ⟨w3, k3, hw3⟩ <;>
    rcases k4 with k4 | ⟨w4, k4, hw4⟩ <;>
    rcases k5 with k5 | ⟨w5, k5, hw5⟩ <;>
    rcases k6 with k6 | ⟨w6, k6, hw6⟩ <;>
    by_cases hv : v = 0 <;>
    simp_all [wi_tail, NO_INTEROPS_FOUND, SUCCESS, encode_error]

/-- Counterexample to claim C8 as stated: with every category perfectly
readable but `max_cycle = 10`, which is not above the alignment cycle 25,
the run succeeds without ever attempting a read of the error-metrics
category — so a read is *not* attempted for every known category
regardless of the bounds (and no read of an index category exists in
`write_interops` at all). -/
theorem claim8_counterexample :
    (write_interops cinp8 10 4 25).2.err_att = false ∧
    (write_interops cinp8 10 4 25).1 = SUCCESS := ⟨rfl, rfl⟩

/-- Claim C8 (amended): in a run whose reads are all benign (file missing
or a nonempty parse), `write_interops` attempts the tile,
corrected-intensity, extraction, q and image categories, attempts the
error category exactly when `max_cycle > cycle_to_align`, never reads an
index category, and reports `NO_INTEROPS_FOUND` exactly when no category
produced output (every destination write trace empty). -/
theorem claim8_attempts (inp : run_inputs) (mc mr ca : Nat)
    (h1 : benign_tile inp.tile) (h2 : benign_cyc inp.err) (h3 : benign_cyc inp.ci)
    (h4 : benign_cyc inp.extraction) (h5 : benign_cyc inp.q) (h6 : benign_cyc inp.image) :
    (write_interops inp mc mr ca).2.tile_att = true ∧
    (write_interops inp mc mr ca).2.err_att = decide (ca < mc) ∧
    (write_interops inp mc mr ca).2.ci_att = true ∧
    (write_interops inp mc mr ca).2.ext_att = true ∧
    (write_interops inp mc mr ca).2.q_att = true ∧
    (write_interops inp mc mr ca).2.img_att = true ∧
    ((write_interops inp mc mr ca).1 = NO_INTEROPS_FOUND ↔
      ((write_interops inp mc mr ca).2.tile_writes = [] ∧
       (write_interops inp mc mr ca).2.err_writes = [] ∧
       (write_interops inp mc mr ca).2.ci_writes = [] ∧
       (write_interops inp mc mr ca).2.ext_writes = [] ∧
       (write_interops inp mc mr ca).2.q_writes = [] ∧
       (write_interops inp mc mr ca).2.img_writes = [])) := by
  have main : ∀ (v0 : Nat) (o0 : run_outputs), o0.tile_att = true →
      o0.err_att = decide (ca < mc) →
      (v0 = 0 ↔ (o0.tile_writes = [] ∧ o0.err_writes = [])) →
      ((wi_tail inp mc v0 o0).2.tile_att = true ∧
       (wi_tail inp mc v0 o0).2.err_att = decide (ca < mc) ∧
       (wi_tail inp mc v0 o0).2.ci_att = true ∧
       (wi_tail inp mc v0 o0).2.ext_att = true ∧
       (wi_tail inp mc v0 o0).2.q_att = true ∧
       (wi_tail inp mc v0 o0).2.img_att = true ∧
       ((wi_tail inp mc v0 o0).1 = NO_INTEROPS_FOUND ↔
         ((wi_tail inp mc v0 o0).2.tile_writes = [] ∧
          (wi_tail inp mc v0 o0).2.err_writes = [] ∧
          (wi_tail inp mc v0 o0).2.ci_writes = [] ∧
          (wi_tail inp mc v0 o0).2.ext_writes = [] ∧
          (wi_tail inp mc v0 o0).2.q_writes = [] ∧
          (wi_tail inp mc v0 o0).2.img_writes = []))) := by
    intro v0 o0 hta hea hviff
    obtain ⟨e1, e2, e3, e4, e5, e6, hiff⟩ := wi_tail_benign inp mc v0 o0 h3 h4 h5 h6
    refine ⟨by rw [wi_tail_tile_att]; exact hta,
            by rw [wi_tail_err_att]; exact hea,
            wi_tail_ci_att inp mc v0 o0, e1, e2, e3, ?_⟩
    rw [hiff, wi_tail_tile_writes, wi_tail_err_writes, wi_tail_ci_writes, e4, e5, e6]
    constructor
    · rintro ⟨hv0, hciw, hexw, hqw, hiw⟩
      exact ⟨(hviff.mp hv0).1, (hviff.mp hv0).2, hciw, hexw, hqw, hiw⟩
    · rintro ⟨htw, hew, hciw, hexw, hqw, hiw⟩
      exact ⟨hviff.mpr ⟨htw, hew⟩, hciw, hexw, hqw, hiw⟩
  have k1 := benign_tile_copy inp.tile mr h1
  have k2 := benign_cyc_copy inp.err mc h2
  by_cases hca : ca < mc
  · rcases k1 with k1 | ⟨w1, k1, hw1⟩ <;> rcases k2 with k2 | ⟨w2, k2, hw2⟩
    · rw [show write_interops inp mc mr ca = wi_tail inp mc 0
          ⟨true, [], true, [], false, [], false, [], false, [], false, []⟩ from by
        simp [write_interops, k1, k2, hca, empty_outputs]]
      exact main 0 _ rfl (by simp [hca]) (by simp)
    · rw [show write_interops inp mc mr ca = wi_tail inp mc 1
          ⟨true, [], true, w2, false, [], false, [], false, [], false, []⟩ from by
        simp [write_interops, k1, k2, hca, empty_outputs]]
      exact main 1 _ rfl (by simp [hca]) (by simp [hw2])
    · rw [show write_interops inp mc mr ca = wi_tail inp mc 1
          ⟨true, w1, true, [], false, [], false, [], false, [], false, []⟩ from by
        simp [write_interops, k1, k2, hca, empty_outputs]]
      exact main 1 _ rfl (by simp [hca]) (by simp [hw1])
    · rw [show write_interops inp mc mr ca = wi_tail inp mc 2
          ⟨true, w1, true, w2, false, [], false, [], false, [], false, []⟩ from by
        simp [write_interops, k1, k2, hca, empty_outputs]]
      exact main 2 _ rfl (by simp [hca]) (by simp [hw1])
  · rcases k1 with k1 | ⟨w1, k1, hw1⟩
    · rw [show write_interops inp mc mr ca = wi_tail inp mc 0
          ⟨true, [], false, [], false, [], false, [], false, [], false, []⟩ from by
        simp [write_interops, k1, hca, empty_outputs]]
      exact main 0 _ rfl (by simp [hca]) (by simp)
    · rw [show write_interops inp mc mr ca = wi_tail inp mc 1
          ⟨true, w1, false, [], false, [], false, [], false, [], false, []⟩ from by
        simp [write_interops, k1, hca, empty_outputs]]
      exact main 1 _ rfl (by simp [hca]) (by simp [hw1])

/-- Witness for the amended C8: all categories readable, `max_cycle = 30`
above the alignment cycle. -/
theorem claim8_attempts_witness :
    (write_interops cinp8 30 4 25).2.tile_att = true ∧
    (write_interops cinp8 30 4 25).2.err_att = decide (25 < 30) ∧
    (write_interops cinp8 30 4 25).2.ci_att = true ∧
    (write_interops cinp8 30 4 25).2.ext_att = true ∧
    (write_interops cinp8 30 4 25).2.q_att = true ∧
    (write_interops cinp8 30 4 25).2.img_att = true ∧
    ((write_interops cinp8 30 4 25).1 = NO_INTEROPS_FOUND ↔
      ((write_interops cinp8 30 4 25).2.tile_writes = [] ∧
       (write_interops cinp8 30 4 25).2.err_writes = [] ∧
       (write_interops cinp8 30 4 25).2.ci_writes = [] ∧
       (write_interops cinp8 30 4 25).2.ext_writes = [] ∧
       (write_interops cinp8 30 4 25).2.q_writes = [] ∧
       (write_interops cinp8 30 4 25).2.img_writes = [])) :=
  claim8_attempts cinp8 30 4 25
    (Or.inr ⟨exTileSet, rfl, by decide⟩) (Or.inr ⟨exCycSet, rfl, by decide⟩)
    (Or.inr ⟨exCycSet, rfl, by decide⟩) (Or.inr ⟨exCycSet, rfl, by decide⟩)
    (Or.inr ⟨exCycSet, rfl, by decide⟩) (Or.inr ⟨exCycSet, rfl, by decide⟩)

/-- Claim C9: a category file whose read yields a metric set with zero
records — whether from a successful parse of a header-only file or from an
incomplete file whose caught read left the default-constructed set
empty — produces the distinct fatal result `EMPTY_INTEROP` in
`read_metrics_from_file`, and in the orchestration this aborts the whole
operation with `encode_error EMPTY_INTEROP ty` (shown at the
corrected-intensity category, whose abort prevents the extraction
category from being attempted), unlike a missing file, which is skipped
and lets the remaining categories proceed. -/
theorem claim9_empty_fatal (inp : run_inputs) (mc mr ca : Nat) :
    (∀ s : cyc_metrics, s.records = [] →
       (read_metrics_from_file cyc_empty (fun m => m.records.length) (.ok s)).1
         = EMPTY_INTEROP) ∧
    ((read_metrics_from_file cyc_empty (fun m => m.records.length)
        (.error .incompleteFile)).1 = EMPTY_INTEROP) ∧
    (∀ s : cyc_metrics, inp.tile = .error .fileNotFound → ¬ ca < mc →
       inp.ci = .ok s → s.records = [] →
       (write_interops inp mc mr ca).1 = encode_error EMPTY_INTEROP 2 ∧
       (write_interops inp mc mr ca).2.ext_att = false) ∧
    (inp.tile = .error .fileNotFound → ¬ ca < mc → inp.ci = .error .fileNotFound →
       (write_interops inp mc mr ca).2.ext_att = true) := by
  refine ⟨?_, ?_, ?_, ?_⟩
  · intro s hs
    simp [read_metrics_from_file, hs]
  · rfl
  · intro s ht hca hci hs
    have hw : write_interops inp mc mr ca
        = wi_tail inp mc 0 { empty_outputs with tile_att := true, tile_writes := [] } := by
      simp [write_interops, ht, copy_tile_fnf, hca]
    rw [hw]
    have hcc : copy_cycle_metrics inp.ci mc = (EMPTY_INTEROP, []) := by
      rw [hci]
      exact copy_cycle_ok_empty s hs mc
    have habort := wi_tail_abort_ci inp mc 0
      { empty_outputs with tile_att := true, tile_writes := [] }
      (by rw [hcc]; simp [EMPTY_INTEROP])
    rw [habort, hcc]
    simp [empty_outputs]
  · intro ht hca hci
    have hw : write_interops inp mc mr ca
        = wi_tail inp mc 0 { empty_outputs with tile_att := true, tile_writes := [] } := by
      simp [write_interops, ht, copy_tile_fnf, hca]
    rw [hw]
    apply wi_tail_ext_att
    rw [hci, copy_cycle_fnf]

/-- Witness for C9 at concrete inputs: an empty parsed set, an incomplete
read, and the two orchestration inputs `winp9` (empty corrected-intensity
file, aborts with 502) and `winp9b` (missing corrected-intensity file,
extraction still attempted). -/
theorem claim9_empty_fatal_witness :
    (read_metrics_from_file cyc_empty (fun m => m.records.length) (.ok emptyCycSet)).1
      = EMPTY_INTEROP ∧
    (read_metrics_from_file cyc_empty (fun m => m.records.length)
        (.error .incompleteFile)).1 = EMPTY_INTEROP ∧
    (write_interops winp9 20 4 25).1 = encode_error EMPTY_INTEROP 2 ∧
    (write_interops winp9b 20 4 25).2.ext_att = true := by
  have h := claim9_empty_fatal winp9 20 4 25
  have hb := claim9_empty_fatal winp9b 20 4 25
  exact ⟨h.1 emptyCycSet rfl, h.2.1,
    (h.2.2.1 emptyCycSet rfl (by omega) rfl rfl).1,
    hb.2.2.2 rfl (by omega) rfl⟩
